import Mathlib

/-!
Verification of the model-reconciliation and animation-selection core of the
repository (update-model.ts and the virtual-DOM listener helper).  The data
model and the operations are shallowly embedded: TypeScript in-place mutation
becomes explicit value passing, elements of the new tree are written back
through their identifiers, and fallible lookups return Option.
-/

namespace Sprotty

/-- Modelled from the spec: a 2D point, the position of a Locateable element.
Coordinates are rationals standing for the JavaScript numbers. -/
structure Point where
  x : ℚ
  y : ℚ
deriving DecidableEq

/-- Modelled from the spec: a width/height pair of a Bounds-aware element. -/
structure Dimension where
  width : ℚ
  height : ℚ
deriving DecidableEq

/-- Modelled from the spec: a rectangle given by position and dimension. -/
structure Bounds where
  x : ℚ
  y : ℚ
  width : ℚ
  height : ℚ
deriving DecidableEq

/-- Modelled from the spec: the tolerance of the epsilon comparison used by
coordinate and dimension checks (utils/geometry is missing from src/). -/
def epsilon : ℚ := ⟨1, 1000, by decide, by decide⟩

/-- Modelled from the spec: epsilon comparison of two coordinates, deciding
|a - b| < epsilon.  It is written with integer cross-multiplication
(|a.num * b.den - b.num * a.den| * 1000 < a.den * b.den), which is equivalent
to |a - b| < 1/1000 and evaluates in the kernel; see almostEquals_iff. -/
def almostEquals (a b : ℚ) : Bool :=
  (a.num * (b.den : ℤ) - b.num * (a.den : ℤ)).natAbs * 1000 < a.den * b.den

/-- Modelled from the spec: a dimension is valid when width and height are
non-negative; negative values are the not-yet-measured sentinel
(utils/geometry is missing from src/). -/
def isValidDimension (d : Bounds) : Bool :=
  decide (0 ≤ d.width) && decide (0 ≤ d.height)

/-- Modelled from the base model class hierarchy: SModelElement,
SParentElement, SChildElement, SModelRoot and ViewportRootElement. -/
inductive ElemKind where
  | element
  | parentElem
  | childElem
  | rootElem
  | viewportRoot
deriving DecidableEq

/-- Instanceof SParentElement: every kind except the plain element. -/
def ElemKind.isParentElement : ElemKind → Bool
  | .element => false
  | _ => true

/-- Instanceof SChildElement. -/
def ElemKind.isChildElement : ElemKind → Bool
  | .childElem => true
  | _ => false

/-- Instanceof SModelRoot: plain roots and viewport roots. -/
def ElemKind.isModelRoot : ElemKind → Bool
  | .rootElem => true
  | .viewportRoot => true
  | _ => false

/-- Instanceof ViewportRootElement. -/
def ElemKind.isViewportRoot : ElemKind → Bool
  | .viewportRoot => true
  | _ => false

/-- Scalar fields of a model element.  A capability (Locateable, Bounds-aware,
Selectable, Fadeable, viewport state) is the presence of its field, following
the spec's capability model; canvasBounds is meaningful on roots. -/
structure ElemData where
  id : String
  etype : String
  kind : ElemKind
  position : Option Point := none
  bounds : Option Bounds := none
  selected : Option Bool := none
  opacity : Option ℚ := none
  scroll : Option Point := none
  zoom : Option ℚ := none
  canvasBounds : Bounds := ⟨0, 0, 0, 0⟩
deriving DecidableEq

/-- A model element: its scalar data and its ordered children. -/
inductive SElem : Type where
  | node (data : ElemData) (children : List SElem)

def SElem.data : SElem → ElemData
  | .node d _ => d

def SElem.children : SElem → List SElem
  | .node _ ch => ch

def SElem.id (e : SElem) : String := e.data.id

def SElem.position (e : SElem) : Option Point := e.data.position

def SElem.bounds (e : SElem) : Option Bounds := e.data.bounds

def SElem.selected (e : SElem) : Option Bool := e.data.selected

def SElem.opacity (e : SElem) : Option ℚ := e.data.opacity

def SElem.scroll (e : SElem) : Option Point := e.data.scroll

def SElem.zoom (e : SElem) : Option ℚ := e.data.zoom

def SElem.canvasBounds (e : SElem) : Bounds := e.data.canvasBounds

def SElem.kind (e : SElem) : ElemKind := e.data.kind

def SElem.withPosition (e : SElem) (p : Option Point) : SElem :=
  .node { e.data with position := p } e.children

def SElem.withBounds (e : SElem) (b : Option Bounds) : SElem :=
  .node { e.data with bounds := b } e.children

def SElem.withSelected (e : SElem) (s : Option Bool) : SElem :=
  .node { e.data with selected := s } e.children

def SElem.withOpacity (e : SElem) (o : Option ℚ) : SElem :=
  .node { e.data with opacity := o } e.children

def SElem.withScroll (e : SElem) (s : Option Point) : SElem :=
  .node { e.data with scroll := s } e.children

def SElem.withZoom (e : SElem) (z : Option ℚ) : SElem :=
  .node { e.data with zoom := z } e.children

def SElem.withCanvasBounds (e : SElem) (cb : Bounds) : SElem :=
  .node { e.data with canvasBounds := cb } e.children

/-- SParentElement.add / SModelRoot.add: append a child. -/
def SElem.addChild (e : SElem) (c : SElem) : SElem :=
  .node e.data (e.children ++ [c])

mutual

/-- Embedding of the model index lookup index.getById: first element of the
tree carrying the identifier (unique identifiers are a tree invariant). -/
def getById : SElem → String → Option SElem
  | .node d ch, i => if d.id = i then some (.node d ch) else getByIdL ch i

def getByIdL : List SElem → String → Option SElem
  | [], _ => none
  | e :: es, i =>
    match getById e i with
    | some r => some r
    | none => getByIdL es i

end

mutual

/-- Functional counterpart of mutating the indexed element: replace the
element carrying the identifier by the given element. -/
def replaceById : SElem → String → SElem → SElem
  | .node d ch, i, e =>
    if d.id = i then e else .node d (replaceByIdL ch i e)

def replaceByIdL : List SElem → String → SElem → List SElem
  | [], _, _ => []
  | c :: cs, i, e => replaceById c i e :: replaceByIdL cs i e

end

mutual

/-- Functional counterpart of parent.add(element) where the parent is known by
its identifier: append the element to the children of that parent. -/
def addChildById : SElem → String → SElem → SElem
  | .node d ch, pid, e =>
    if d.id = pid then .node d (ch ++ [e])
    else .node d (addChildByIdL ch pid e)

def addChildByIdL : List SElem → String → SElem → List SElem
  | [], _, _ => []
  | c :: cs, pid, e => addChildById c pid e :: addChildByIdL cs pid e

end

mutual

/-- Functional counterpart of element.parent.remove(element): detach the
element carrying the identifier from its parent. -/
def removeById : SElem → String → SElem
  | .node d ch, i => .node d (removeByIdL ch i)

def removeByIdL : List SElem → String → List SElem
  | [], _ => []
  | c :: cs, i =>
    if c.id = i then removeByIdL cs i
    else removeById c i :: removeByIdL cs i

end

/-- Embedding of the Match interface of model-matching: an optional old
(left) side, an optional new (right) side, and the recorded parent
identifiers.  Directives carry schemas and results carry elements; both are
SElem values in this model, since the factory materializes a schema as the
corresponding element. -/
structure SMatch where
  left : Option SElem := none
  right : Option SElem := none
  leftParentId : Option String := none
  rightParentId : Option String := none

/-- A MatchResult is a string-keyed object mapping an identifier to its
Match, in insertion order. -/
abbrev MatchResult := List (String × SMatch)

/-- Assignment into a string-keyed object (also JavaScript Map.set):
overwrite the value when the key is present, keeping its position, and append
the pair otherwise. -/
def objSet {α : Type} : List (String × α) → String → α → List (String × α)
  | [], k, v => [(k, v)]
  | (k0, v0) :: rest, k, v =>
    if k0 = k then (k0, v) :: rest else (k0, v0) :: objSet rest k v

/-- Lookup in a string-keyed object. -/
def objGet {α : Type} : List (String × α) → String → Option α
  | [], _ => none
  | (k0, v0) :: rest, k => if k0 = k then some v0 else objGet rest k

/-- Direction of a fade job. -/
inductive FadeDirection where
  | fadeIn
  | fadeOut
deriving DecidableEq

/-- Embedding of ResolvedElementFade. -/
structure ResolvedElementFade where
  element : SElem
  fadeKind : FadeDirection

/-- Embedding of ResolvedElementMove. -/
structure ResolvedElementMove where
  element : SElem
  elementId : String
  fromPosition : Point
  toPosition : Point

/-- Embedding of ResolvedElementResize. -/
structure ResolvedElementResize where
  element : SElem
  fromDimension : Dimension
  toDimension : Dimension

/-- Embedding of UpdateAnimationData: fades are always present, moves and
resizes are created on demand. -/
structure UpdateAnimationData where
  fades : List ResolvedElementFade
  moves : Option (List ResolvedElementMove) := none
  resizes : Option (List ResolvedElementResize) := none

/-- The moves sequence, empty when absent. -/
def movesOf (d : UpdateAnimationData) : List ResolvedElementMove := d.moves.getD []

/-- The resizes sequence, empty when absent. -/
def resizesOf (d : UpdateAnimationData) : List ResolvedElementResize := d.resizes.getD []

/-- Modelled from the spec: the animation objects constructed by the update
command (the time-driven engine itself is missing from src/); only the
construction parameters matter to reconciliation.  Move and resize animations
carry the map keyed by element identifier that createAnimations builds. -/
inductive Animation : Type where
  | fadeAnimation (modelRoot : SElem) (elementFades : List ResolvedElementFade)
      (removeAfterFade : Bool)
  | moveAnimation (modelRoot : SElem) (elementMoves : List (String × ResolvedElementMove))
  | resizeAnimation (modelRoot : SElem) (elementResizes : List (String × ResolvedElementResize))
  | compoundAnimation (modelRoot : SElem) (components : List Animation)

/-- True exactly on compound animations. -/
def Animation.isCompound : Animation → Bool
  | .compoundAnimation _ _ => true
  | _ => false

/-- Embedding of CommandResult: the committed root, or a started animation
(whose eventual promise of a root is not modelled). -/
inductive CommandResult : Type where
  | root (newRoot : SElem)
  | started (animation : Animation)

/-- Modelled from the spec: starting an animation yields the running
animation as the command result. -/
def Animation.start (a : Animation) : CommandResult := .started a

/-- Modelled from the spec: Locateable capability is presence of a position. -/
def isLocateable (e : SElem) : Bool := e.position.isSome

/-- Modelled from the spec: Bounds-aware capability is presence of bounds. -/
def isBoundsAware (e : SElem) : Bool := e.bounds.isSome

/-- Modelled from the spec: Selectable capability is presence of the flag. -/
def isSelectable (e : SElem) : Bool := e.selected.isSome

/-- Modelled from the spec: Fadeable capability is presence of an opacity. -/
def isFadeable (e : SElem) : Bool := e.opacity.isSome

/-- Modelled from the spec: the model factory materializes a schema into an
element; elements stand for their own schemas in this value model, so
creation is the identity copy (used for the fade-out ghost copy). -/
def createElement (e : SElem) : SElem := e

/-- Modelled from the spec: root creation by the model factory. -/
def createRoot (e : SElem) : SElem := e

/-- Embedding of the Locateable branch of updateElement (update-model.ts
lines 181-195): when both positions exist and differ beyond tolerance in x or
y, push one move job and reset the new element to the old position. -/
def updatePosition (left right : SElem) (d : UpdateAnimationData) :
    SElem × UpdateAnimationData :=
  match left.position, right.position with
  | some leftPos, some rightPos =>
    if !almostEquals leftPos.x rightPos.x || !almostEquals leftPos.y rightPos.y then
      (right.withPosition (some leftPos),
       { d with moves := some (movesOf d ++
           [{ element := right, elementId := right.id,
              fromPosition := leftPos, toPosition := rightPos }]) })
    else (right, d)
  | _, _ => (right, d)

/-- Embedding of the Bounds-aware branch of updateElement (lines 196-220):
an invalid new dimension inherits the old width and height; otherwise a
dimension change beyond tolerance pushes one resize job. -/
def updateBounds (left right : SElem) (d : UpdateAnimationData) :
    SElem × UpdateAnimationData :=
  match left.bounds, right.bounds with
  | some leftBounds, some rightBounds =>
    if !isValidDimension rightBounds then
      (right.withBounds (some { x := rightBounds.x, y := rightBounds.y,
                                width := leftBounds.width, height := leftBounds.height }), d)
    else if !almostEquals leftBounds.width rightBounds.width ||
            !almostEquals leftBounds.height rightBounds.height then
      (right, { d with resizes := some (resizesOf d ++
          [{ element := right,
             fromDimension := { width := leftBounds.width, height := leftBounds.height },
             toDimension := { width := rightBounds.width, height := rightBounds.height } }]) })
    else (right, d)
  | _, _ => (right, d)

/-- Embedding of the Selectable branch (lines 221-223). -/
def updateSelected (left right : SElem) : SElem :=
  match left.selected, right.selected with
  | some leftSel, some _ => right.withSelected (some leftSel)
  | _, _ => right

/-- Embedding of the SModelRoot branch (lines 224-226). -/
def updateCanvasBounds (left right : SElem) : SElem :=
  if left.kind.isModelRoot && right.kind.isModelRoot then
    right.withCanvasBounds left.canvasBounds
  else right

/-- Embedding of the ViewportRootElement branch (lines 227-230). -/
def updateViewport (left right : SElem) : SElem :=
  if left.kind.isViewportRoot && right.kind.isViewportRoot then
    (right.withScroll left.scroll).withZoom left.zoom
  else right

/-- Embedding of UpdateModelCommand.updateElement (lines 180-231).  Every
TypeScript assignment in the source targets a field of right; accordingly the
embedding threads right (and the animation data) through the five capability
branches and returns left untouched in the first component. -/
def updateElement (left right : SElem) (animationData : UpdateAnimationData) :
    SElem × SElem × UpdateAnimationData :=
  let (right1, data1) := updatePosition left right animationData
  let (right2, data2) := updateBounds left right1 data1
  let right3 := updateSelected left right2
  let right4 := updateCanvasBounds left right3
  let right5 := updateViewport left right4
  (left, right5, data2)

/-- Embedding of the body of the reconciliation loop of computeAnimation
(lines 136-168) on one match-result entry.  The in-place mutation of an
element of the new tree is written back through its identifier; the ghost
copy of a removed element is appended to the children of the resolved
parent. -/
def processMatch (context : SElem × UpdateAnimationData) (entry : String × SMatch) :
    SElem × UpdateAnimationData :=
  let newRoot := context.1
  let animationData := context.2
  let m := entry.2
  match m.left, m.right with
  | some left, some right =>
    let u := updateElement left right animationData
    (replaceById newRoot right.id u.2.1, u.2.2)
  | none, some right =>
    if isFadeable right then
      let right2 := right.withOpacity (some 0)
      (replaceById newRoot right.id right2,
       { animationData with
         fades := animationData.fades ++ [{ element := right2, fadeKind := .fadeIn }] })
    else (newRoot, animationData)
  | some left, none =>
    if left.kind.isChildElement then
      if isFadeable left then
        match m.leftParentId with
        | some pid =>
          if (getById newRoot left.id).isNone then
            match getById newRoot pid with
            | some parent =>
              if parent.kind.isParentElement then
                let leftCopy := createElement left
                (addChildById newRoot pid leftCopy,
                 { animationData with
                   fades := animationData.fades ++
                     [{ element := leftCopy, fadeKind := .fadeOut }] })
              else (newRoot, animationData)
            | none => (newRoot, animationData)
          else (newRoot, animationData)
        | none => (newRoot, animationData)
      else (newRoot, animationData)
    else (newRoot, animationData)
  | none, none => (newRoot, animationData)

/-- Embedding of createAnimations (lines 233-253): one fade animation when
fades is non-empty, one move animation over the map keyed by element
identifier when moves is present and non-empty, and likewise one resize
animation. -/
def createAnimations (data : UpdateAnimationData) (root : SElem) : List Animation :=
  let animations : List Animation := []
  let animations :=
    if data.fades.length > 0 then
      animations ++ [.fadeAnimation root data.fades true]
    else animations
  let animations :=
    match data.moves with
    | some moves =>
      if moves.length > 0 then
        let movesMap := moves.foldl (fun acc mv => objSet acc mv.elementId mv) []
        animations ++ [.moveAnimation root movesMap]
      else animations
    | none => animations
  let animations :=
    match data.resizes with
    | some resizes =>
      if resizes.length > 0 then
        let resizesMap := resizes.foldl (fun acc rs => objSet acc rs.element.id rs) []
        animations ++ [.resizeAnimation root resizesMap]
      else animations
    | none => animations
  animations

/-- The reconciliation loop of computeAnimation (lines 133-168): fold the
loop body over the match result, starting from the new root and animation
data holding an empty fades sequence. -/
def reconcile (newRoot : SElem) (matchResult : MatchResult) :
    SElem × UpdateAnimationData :=
  matchResult.foldl processMatch (newRoot, { fades := [] })

/-- The number of non-empty job sequences collected in the animation data
(moves and resizes count as empty when absent). -/
def nonEmptyCount (d : UpdateAnimationData) : Nat :=
  (if d.fades.length > 0 then 1 else 0) +
  ((if (movesOf d).length > 0 then 1 else 0) +
   (if (resizesOf d).length > 0 then 1 else 0))

/-- Embedding of computeAnimation (lines 132-178): fold the reconciliation
loop over the match result, build the animations, and select the returned
value: the (post-reconciliation) new root when there is no animation, the
single animation alone, or a compound animation over all of them. -/
def computeAnimation (newRoot : SElem) (matchResult : MatchResult) :
    SElem ⊕ Animation :=
  let folded := reconcile newRoot matchResult
  let root2 := folded.1
  let animations := createAnimations folded.2 root2
  if animations.length ≥ 2 then
    .inr (.compoundAnimation root2 animations)
  else
    match animations with
    | [a] => .inr a
    | _ => .inl root2

/-- The identifier under which convertToMatchResult records a directive: the
right identifier when a right side is named (the variable id is overwritten),
otherwise the left identifier when a left side is named. -/
def directiveKey (m : SMatch) : Option String :=
  match m.right with
  | some r => some r.id
  | none => m.left.map SElem.id

/-- The converted Match of one directive (lines 114-125): each named side is
resolved through the index of its root, and the parent identifiers are copied
alongside. -/
def convertedMatch (m : SMatch) (leftRoot rightRoot : SElem) : SMatch :=
  let c0 : SMatch := {}
  let c1 :=
    match m.left with
    | some l => { c0 with left := getById leftRoot l.id, leftParentId := m.leftParentId }
    | none => c0
  match m.right with
  | some r => { c1 with right := getById rightRoot r.id, rightParentId := m.rightParentId }
  | none => c1

/-- The key sequence of a match result object. -/
def keysOf (r : MatchResult) : List String := r.map (fun e => e.1)

/-- The last directive of the list whose key is the given identifier. -/
def findLastDirective (matchList : List SMatch) (i : String) : Option SMatch :=
  matchList.foldl (fun acc m => if directiveKey m = some i then some m else acc) none

/-- One fold step of convertToMatchResult (lines 113-128): record the
converted Match under the directive key, when there is one. -/
def convertStep (leftRoot rightRoot : SElem) (result : MatchResult) (m : SMatch) :
    MatchResult :=
  match directiveKey m with
  | some i => objSet result i (convertedMatch m leftRoot rightRoot)
  | none => result

/-- Embedding of convertToMatchResult (lines 111-130). -/
def convertToMatchResult (matchList : List SMatch) (leftRoot rightRoot : SElem) :
    MatchResult :=
  matchList.foldl (convertStep leftRoot rightRoot) []

/-- The left-removal half of one applyMatches step (lines 93-97): a resolved
SChildElement is detached from its parent. -/
def applyLeftRemoval (root : SElem) (m : SMatch) : SElem :=
  match m.left with
  | some l =>
    match getById root l.id with
    | some element =>
      if element.kind.isChildElement then removeById root element.id else root
    | none => root
  | none => root

/-- One step of applyMatches (lines 92-108): remove the left side, then
insert the created right element under the resolved parent, falling back to
the tree root when no parent identifier is named, the identifier is unknown,
or the resolved element is not a parent element. -/
def applyMatchStep (root : SElem) (m : SMatch) : SElem :=
  let root1 := applyLeftRemoval root m
  match m.right with
  | some r =>
    let element := createElement r
    let parent : Option SElem :=
      match m.rightParentId with
      | some pid => getById root1 pid
      | none => none
    match parent with
    | some p =>
      if p.kind.isParentElement then addChildById root1 p.id element
      else root1.addChild element
    | none => root1.addChild element
  | none => root1

/-- Embedding of applyMatches (lines 90-109). -/
def applyMatches (root : SElem) (matchList : List SMatch) : SElem :=
  matchList.foldl applyMatchStep root

mutual

/-- Preorder collection of (identifier, element, parent identifier) over a
tree, used by the default matcher model. -/
def collectWithParents : Option String → SElem → List (String × SElem × Option String)
  | pid, .node d ch => (d.id, .node d ch, pid) :: collectWithParentsL (some d.id) ch

def collectWithParentsL : Option String → List SElem → List (String × SElem × Option String)
  | _, [] => []
  | pid, e :: es => collectWithParents pid e ++ collectWithParentsL pid es

end

/-- Modelled from the spec: the default Model Matcher pairs elements of the
two trees by identifier equality; unmatched old elements become removals and
unmatched new elements become additions, each side tagged with its parent
identifier (model-matching.ts is missing from src/). -/
def modelMatch (leftRoot rightRoot : SElem) : MatchResult :=
  let lefts := collectWithParents none leftRoot
  let rights := collectWithParents none rightRoot
  let result := lefts.foldl
    (fun acc entry =>
      objSet acc entry.1 { left := some entry.2.1, leftParentId := entry.2.2 })
    ([] : MatchResult)
  rights.foldl
    (fun acc entry =>
      let existing := (objGet acc entry.1).getD {}
      objSet acc entry.1 { existing with right := some entry.2.1, rightParentId := entry.2.2 })
    result

/-- Embedding of performUpdate (lines 70-88): with animation requested and
equal root identifiers, match (explicitly or by the default matcher) and
reconcile, starting the resulting animation; otherwise commit the new root
immediately, copying only the old canvas bounds onto it. -/
def performUpdate (animate : Bool) (matchList : Option (List SMatch))
    (oldRoot newRoot : SElem) : CommandResult :=
  if animate && (oldRoot.id == newRoot.id) then
    let matchResult :=
      match matchList with
      | none => modelMatch oldRoot newRoot
      | some ms => convertToMatchResult ms oldRoot newRoot
    match computeAnimation newRoot matchResult with
    | .inr animation => animation.start
    | .inl root => .root root
  else
    .root (newRoot.withCanvasBounds oldRoot.canvasBounds)

/-- Embedding of UpdateModelAction (lines 28-35); the matches field is named
matchList here because matches is reserved in Lean. -/
structure UpdateModelAction where
  newRoot : Option SElem := none
  matchList : Option (List SMatch) := none
  animate : Option Bool := some true

/-- Embedding of the UpdateModelCommand constructor (lines 50-54): an
undefined animate flag is replaced by true. -/
def initAction (action : UpdateModelAction) : UpdateModelAction :=
  if action.animate = none then { action with animate := some true } else action

/-- State of an UpdateModelCommand after execute: the (normalized) action and
the stored old and new roots. -/
structure UpdateCommandState where
  action : UpdateModelAction
  oldRoot : SElem
  newRoot : SElem

/-- Embedding of execute (lines 56-68): materialize the new root (from the
action, or from the context root with the explicit matches applied), store
both roots, and perform the update. -/
def execute (action0 : UpdateModelAction) (contextRoot : SElem) :
    UpdateCommandState × CommandResult :=
  let action := initAction action0
  let newRoot :=
    match action.newRoot with
    | some schema => createRoot schema
    | none =>
      let root := createRoot contextRoot
      match action.matchList with
      | some ms => applyMatches root ms
      | none => root
  let st : UpdateCommandState := { action := action, oldRoot := contextRoot, newRoot := newRoot }
  (st, performUpdate (action.animate.getD true) action.matchList contextRoot newRoot)

/-- Embedding of undo (lines 255-257): the same orchestration with the stored
roots swapped. -/
def undo (st : UpdateCommandState) : CommandResult :=
  performUpdate (st.action.animate.getD true) st.action.matchList st.newRoot st.oldRoot

/-- Embedding of redo (lines 259-261): the same orchestration forward. -/
def redo (st : UpdateCommandState) : CommandResult :=
  performUpdate (st.action.animate.getD true) st.action.matchList st.oldRoot st.newRoot

/-- The listener pair stored in the on-object of a virtual DOM node: the
registered listener (named) and its model element. -/
structure VListener where
  listenerName : String
  elementId : String

/-- The event-listener table of a virtual DOM node. -/
abbrev OnMap := List (String × VListener)

/-- Embedding of the on helper of src/unnamed/part_001 (lines 37-43): a
second registration for the same event throws, a first registration stores
the pair. -/
def «on» (onMap : OnMap) (event : String) (listener : VListener) :
    Except String OnMap :=
  match objGet onMap event with
  | some _ => .error ("EventListener for " ++ event ++ " already registered on VNode")
  | none => .ok (objSet onMap event listener)

def wEpsHalf : ℚ := ⟨1, 2000, by decide, by decide⟩

def wMoveOld : SElem := .node
  { id := "m1", etype := "node", kind := .childElem, position := some ⟨0, 0⟩ } []

def wMoveNear : SElem := .node
  { id := "m1", etype := "node", kind := .childElem, position := some ⟨wEpsHalf, 0⟩ } []

def wMoveFar : SElem := .node
  { id := "m1", etype := "node", kind := .childElem, position := some ⟨10, 0⟩ } []

def wResizeOld : SElem := .node
  { id := "r1", etype := "node", kind := .childElem, bounds := some ⟨0, 0, 5, 5⟩ } []

def wResizeInvalid : SElem := .node
  { id := "r1", etype := "node", kind := .childElem, bounds := some ⟨0, 0, -1, -1⟩ } []

def wResizeBig : SElem := .node
  { id := "r1", etype := "node", kind := .childElem, bounds := some ⟨0, 0, 9, 9⟩ } []

def w1Old : SElem := .node
  { id := "n1", etype := "node", kind := .childElem, position := some ⟨0, 0⟩,
    bounds := some ⟨0, 0, 5, 5⟩ } []

def w1New : SElem := .node
  { id := "n1", etype := "node", kind := .childElem, position := some ⟨10, 0⟩,
    bounds := some ⟨0, 0, 9, 9⟩ } []

def w1Root : SElem := .node { id := "root", etype := "graph", kind := .rootElem } [w1New]

def w1MR : MatchResult := [("n1", { left := some w1Old, right := some w1New })]

def wC4Root : SElem := .node { id := "root", etype := "graph", kind := .rootElem } []

def wC4Add : SElem := .node
  { id := "a1", etype := "node", kind := .childElem, opacity := some 1 } []

def wC4Gone : SElem := .node
  { id := "g2", etype := "node", kind := .childElem, opacity := some 1 } []

def wC6Old : SElem := .node
  { id := "rootA", etype := "graph", kind := .rootElem, canvasBounds := ⟨1, 2, 3, 4⟩ } []

def wC6New : SElem := .node { id := "rootB", etype := "graph", kind := .rootElem } []

def wListenerA : VListener := { listenerName := "selectTool", elementId := "n1" }

def wListenerB : VListener := { listenerName := "editTool", elementId := "n1" }

def c5LeftRoot : SElem := .node { id := "root", etype := "graph", kind := .rootElem }
  [.node { id := "a", etype := "node", kind := .childElem } []]

def c5RightRoot : SElem := .node { id := "root", etype := "graph", kind := .rootElem }
  [.node { id := "b", etype := "node", kind := .childElem } []]

def c5Directives : List SMatch :=
  [{ left := some (.node { id := "a", etype := "node", kind := .childElem } []),
     right := some (.node { id := "b", etype := "node", kind := .childElem } []) },
   { left := some (.node { id := "x", etype := "node", kind := .childElem } []) }]

def c7Ghost : SElem := .node
  { id := "g", etype := "node", kind := .childElem, opacity := some 1 } []

def c7Root : SElem := .node { id := "root", etype := "graph", kind := .rootElem } []

def c7Match : SMatch := { left := some c7Ghost, leftParentId := some "nope" }

def c7MR : MatchResult := [("g", c7Match)]

/-!
Theorems.  Helper lemmas come first; each claim is settled by one theorem
(with a witness instantiating its hypotheses at concrete inputs, and a
counterexample where the claim as stated fails on the code).
-/

/-- The cross-multiplied comparison agrees with the textbook form. -/
theorem almostEquals_iff (a b : ℚ) : almostEquals a b = true ↔ |a - b| < epsilon := by
  have hDa : (0:ℚ) < (a.den : ℚ) := by positivity
  have hDb : (0:ℚ) < (b.den : ℚ) := by positivity
  have hD : (0:ℚ) < (a.den : ℚ) * (b.den : ℚ) := by positivity
  have heps : epsilon = 1 / 1000 := by
    have h1 : ((epsilon.num : ℚ)) / ((epsilon.den : ℚ)) = epsilon := Rat.num_div_den epsilon
    rw [← h1, show epsilon.num = 1 from rfl, show epsilon.den = 1000 from rfl]
    norm_num
  have ha' : a * (a.den : ℚ) = (a.num : ℚ) := by
    nth_rewrite 1 [← Rat.num_div_den a]
    exact div_mul_cancel₀ _ hDa.ne'
  have hb' : b * (b.den : ℚ) = (b.num : ℚ) := by
    nth_rewrite 1 [← Rat.num_div_den b]
    exact div_mul_cancel₀ _ hDb.ne'
  have hsub : a - b =
      (((a.num * (b.den : ℤ) - b.num * (a.den : ℤ) : ℤ) : ℚ)) / ((a.den : ℚ) * (b.den : ℚ)) := by
    rw [eq_div_iff hD.ne']
    push_cast
    calc (a - b) * ((a.den : ℚ) * (b.den : ℚ))
        = (a * (a.den : ℚ)) * (b.den : ℚ) - (b * (b.den : ℚ)) * (a.den : ℚ) := by ring
      _ = (a.num : ℚ) * (b.den : ℚ) - (b.num : ℚ) * (a.den : ℚ) := by rw [ha', hb']
  simp only [almostEquals, decide_eq_true_eq]
  rw [hsub, heps, abs_div, abs_of_pos hD, div_lt_div_iff₀ hD (by norm_num : (0:ℚ) < 1000)]
  rw [one_mul]
  push_cast
  constructor
  · intro h
    have h' : (((a.num * (b.den : ℤ) - b.num * (a.den : ℤ)).natAbs * 1000 : ℕ) : ℚ) <
        ((a.den * b.den : ℕ) : ℚ) := by exact_mod_cast h
    rw [Nat.cast_mul, Nat.cast_mul, Int.cast_natAbs, Int.cast_abs] at h'
    push_cast at h'
    linarith
  · intro h
    have h' : (((a.num * (b.den : ℤ) - b.num * (a.den : ℤ)).natAbs * 1000 : ℕ) : ℚ) <
        ((a.den * b.den : ℕ) : ℚ) := by
      rw [Nat.cast_mul, Nat.cast_mul, Int.cast_natAbs, Int.cast_abs]
      push_cast
      linarith
    exact_mod_cast h'
@[simp] theorem SElem.data_node (d : ElemData) (ch : List SElem) : (SElem.node d ch).data = d := rfl

@[simp] theorem SElem.children_node (d : ElemData) (ch : List SElem) :
    (SElem.node d ch).children = ch := rfl

theorem updateElement_eq (l r : SElem) (d : UpdateAnimationData) :
    updateElement l r d =
      (l,
       updateViewport l (updateCanvasBounds l (updateSelected l
         (updateBounds l (updatePosition l r d).1 (updatePosition l r d).2).1)),
       (updateBounds l (updatePosition l r d).1 (updatePosition l r d).2).2) := rfl

theorem withBounds_position (e : SElem) (b : Option Bounds) :
    (e.withBounds b).position = e.position := rfl

theorem updateBounds_position (l r : SElem) (d : UpdateAnimationData) :
    (updateBounds l r d).1.position = r.position := by
  unfold updateBounds
  cases hl : l.bounds <;> cases hr : r.bounds <;> simp
  split
  · rfl
  · split <;> rfl

theorem updateBounds_moves (l r : SElem) (d : UpdateAnimationData) :
    (updateBounds l r d).2.moves = d.moves := by
  unfold updateBounds
  cases hl : l.bounds <;> cases hr : r.bounds <;> simp
  split
  · rfl
  · split <;> rfl

theorem updateSelected_position (l r : SElem) : (updateSelected l r).position = r.position := by
  unfold updateSelected
  cases l.selected <;> cases r.selected <;> rfl

theorem updateCanvasBounds_position (l r : SElem) :
    (updateCanvasBounds l r).position = r.position := by
  unfold updateCanvasBounds
  split <;> rfl

theorem updateViewport_position (l r : SElem) : (updateViewport l r).position = r.position := by
  unfold updateViewport
  split <;> rfl

theorem finalStages_position (l r : SElem) :
    (updateViewport l (updateCanvasBounds l (updateSelected l r))).position = r.position := by
  rw [updateViewport_position, updateCanvasBounds_position, updateSelected_position]

/-- C2: for a matched Locateable pair, positions equal within tolerance in
both coordinates leave the move jobs and the new position untouched, while a
difference beyond tolerance in x or y records exactly one move job from the
old to the new position and resets the new element to the old position. -/
theorem updateElement_move (left right : SElem) (d : UpdateAnimationData)
    (lp rp : Point) (hl : left.position = some lp) (hr : right.position = some rp) :
    (almostEquals lp.x rp.x = true → almostEquals lp.y rp.y = true →
      ((updateElement left right d).2.2.moves = d.moves ∧
       (updateElement left right d).2.1.position = some rp)) ∧
    ((almostEquals lp.x rp.x = false ∨ almostEquals lp.y rp.y = false) →
      ((updateElement left right d).2.2.moves =
         some (movesOf d ++ [{ element := right, elementId := right.id,
                               fromPosition := lp, toPosition := rp }]) ∧
       (updateElement left right d).2.1.position = some lp)) := by
  rw [updateElement_eq]
  constructor
  · intro hx hy
    have hup : updatePosition left right d = (right, d) := by
      unfold updatePosition
      rw [hl, hr]
      simp [hx, hy]
    rw [hup]
    exact ⟨updateBounds_moves left right d,
           by rw [finalStages_position, updateBounds_position, hr]⟩
  · intro hxy
    have hup : updatePosition left right d =
        (right.withPosition (some lp),
         { d with moves := some (movesOf d ++
             [{ element := right, elementId := right.id,
                fromPosition := lp, toPosition := rp }]) }) := by
      unfold updatePosition
      rw [hl, hr]
      rcases hxy with hx | hx <;> simp [hx]
    rw [hup]
    refine ⟨by rw [updateBounds_moves], ?_⟩
    rw [finalStages_position, updateBounds_position]
    rfl

theorem updatePosition_bounds (l r : SElem) (d : UpdateAnimationData) :
    (updatePosition l r d).1.bounds = r.bounds := by
  unfold updatePosition
  cases l.position <;> cases r.position <;> simp
  split <;> rfl

theorem updatePosition_resizes (l r : SElem) (d : UpdateAnimationData) :
    (updatePosition l r d).2.resizes = d.resizes := by
  unfold updatePosition
  cases l.position <;> cases r.position <;> simp
  split <;> rfl

theorem updateSelected_bounds (l r : SElem) : (updateSelected l r).bounds = r.bounds := by
  unfold updateSelected
  cases l.selected <;> cases r.selected <;> rfl

theorem updateCanvasBounds_bounds (l r : SElem) :
    (updateCanvasBounds l r).bounds = r.bounds := by
  unfold updateCanvasBounds
  split <;> rfl

theorem updateViewport_bounds (l r : SElem) : (updateViewport l r).bounds = r.bounds := by
  unfold updateViewport
  split <;> rfl

theorem finalStages_bounds (l r : SElem) :
    (updateViewport l (updateCanvasBounds l (updateSelected l r))).bounds = r.bounds := by
  rw [updateViewport_bounds, updateCanvasBounds_bounds, updateSelected_bounds]

/-- C3: for a matched Bounds-aware pair, an invalid new dimension makes the
new element inherit the old width and height with no resize job recorded,
while a valid dimension differing beyond tolerance in width or height records
exactly one resize job from the old to the new dimension. -/
theorem updateElement_resize (left right : SElem) (d : UpdateAnimationData)
    (lb rb : Bounds) (hl : left.bounds = some lb) (hr : right.bounds = some rb) :
    (isValidDimension rb = false →
      ((updateElement left right d).2.1.bounds =
         some { x := rb.x, y := rb.y, width := lb.width, height := lb.height } ∧
       (updateElement left right d).2.2.resizes = d.resizes)) ∧
    (isValidDimension rb = true →
      (almostEquals lb.width rb.width = false ∨ almostEquals lb.height rb.height = false) →
      (updateElement left right d).2.2.resizes =
        some (resizesOf d ++
          [{ element := (updatePosition left right d).1,
             fromDimension := { width := lb.width, height := lb.height },
             toDimension := { width := rb.width, height := rb.height } }])) := by
  rw [updateElement_eq]
  have hb1 : (updatePosition left right d).1.bounds = some rb := by
    rw [updatePosition_bounds, hr]
  have hrs1 : (updatePosition left right d).2.resizes = d.resizes :=
    updatePosition_resizes left right d
  constructor
  · intro hvalid
    have hub : updateBounds left (updatePosition left right d).1 (updatePosition left right d).2 =
        ((updatePosition left right d).1.withBounds
           (some { x := rb.x, y := rb.y, width := lb.width, height := lb.height }),
         (updatePosition left right d).2) := by
      unfold updateBounds
      rw [hl, hb1]
      simp [hvalid]
    rw [hub]
    exact ⟨by rw [finalStages_bounds]; rfl, hrs1⟩
  · intro hvalid hwh
    have hub : updateBounds left (updatePosition left right d).1 (updatePosition left right d).2 =
        ((updatePosition left right d).1,
         { (updatePosition left right d).2 with
           resizes := some (resizesOf (updatePosition left right d).2 ++
               [{ element := (updatePosition left right d).1,
                  fromDimension := { width := lb.width, height := lb.height },
                  toDimension := { width := rb.width, height := rb.height } }]) }) := by
      unfold updateBounds
      rw [hl, hb1]
      rcases hwh with hx | hx <;> simp [hvalid, hx]
    rw [hub]
    show some (resizesOf (updatePosition left right d).2 ++ _) = some (resizesOf d ++ _)
    rw [show resizesOf (updatePosition left right d).2 = resizesOf d by
      unfold resizesOf; rw [hrs1]]

/-- C10: during a reconciliation pass, every property write of updateElement
targets the new element (the old element is returned untouched), and every
tree write of the loop body targets the new root: the result is the new root
itself, the new root with the matched new element replaced at its identifier,
or the new root with a ghost copy added under the recorded parent. -/
theorem reconciliation_frame :
    (∀ (l r : SElem) (d : UpdateAnimationData), (updateElement l r d).1 = l) ∧
    (∀ (root : SElem) (d : UpdateAnimationData) (key : String) (m : SMatch),
        (processMatch (root, d) (key, m)).1 = root ∨
        (∃ right, m.right = some right ∧
          ∃ e, (processMatch (root, d) (key, m)).1 = replaceById root right.id e) ∨
        (∃ left pid, m.left = some left ∧ m.leftParentId = some pid ∧
          (processMatch (root, d) (key, m)).1 = addChildById root pid (createElement left))) := by
  constructor
  · intro l r d
    rfl
  · intro root d key m
    cases hml : m.left with
    | some left =>
      cases hmr : m.right with
      | some right =>
        refine Or.inr (Or.inl ⟨right, rfl, (updateElement left right d).2.1, ?_⟩)
        simp [processMatch, hml, hmr]
      | none =>
        by_cases hch : left.kind.isChildElement = true
        · by_cases hfd : isFadeable left = true
          · cases hpid : m.leftParentId with
            | some pid =>
              by_cases habs : (getById root left.id).isNone = true
              · cases hpar : getById root pid with
                | some parent =>
                  by_cases hp : parent.kind.isParentElement = true
                  · refine Or.inr (Or.inr ⟨left, pid, rfl, rfl, ?_⟩)
                    simp [processMatch, hml, hmr, hch, hfd, hpid, habs, hpar, hp]
                  · refine Or.inl ?_
                    simp [processMatch, hml, hmr, hch, hfd, hpid, habs, hpar]
                    simp at hp
                    simp [hp]
                | none =>
                  refine Or.inl ?_
                  simp [processMatch, hml, hmr, hch, hfd, hpid, habs, hpar]
              · refine Or.inl ?_
                simp at habs
                simp [processMatch, hml, hmr, hch, hfd, hpid, habs]
            | none =>
              refine Or.inl ?_
              simp [processMatch, hml, hmr, hch, hfd, hpid]
          · refine Or.inl ?_
            simp at hfd
            simp [processMatch, hml, hmr, hch, hfd]
        · refine Or.inl ?_
          simp at hch
          simp [processMatch, hml, hmr, hch]
    | none =>
      cases hmr : m.right with
      | some right =>
        by_cases hfd : isFadeable right = true
        · refine Or.inr (Or.inl ⟨right, rfl, right.withOpacity (some 0), ?_⟩)
          simp [processMatch, hml, hmr, hfd]
        · refine Or.inl ?_
          simp at hfd
          simp [processMatch, hml, hmr, hfd]
      | none =>
        refine Or.inl ?_
        simp [processMatch, hml, hmr]

/-- C4: additions of Fadeable elements get opacity forced to 0 and exactly
one fade-in job; removals of Fadeable child elements absent from the new tree
whose recorded parent resolves to a parent element get exactly one fade-out
job against a ghost copy inserted under that parent. -/
theorem processMatch_fade (newRoot : SElem) (d : UpdateAnimationData)
    (key : String) (m : SMatch) :
    (∀ right, m.left = none → m.right = some right → isFadeable right = true →
      processMatch (newRoot, d) (key, m) =
        (replaceById newRoot right.id (right.withOpacity (some 0)),
         { d with fades := d.fades ++
             [{ element := right.withOpacity (some 0), fadeKind := .fadeIn }] })) ∧
    (∀ left pid parent, m.left = some left → m.right = none →
      left.kind.isChildElement = true → isFadeable left = true →
      m.leftParentId = some pid →
      getById newRoot left.id = none →
      getById newRoot pid = some parent →
      parent.kind.isParentElement = true →
      processMatch (newRoot, d) (key, m) =
        (addChildById newRoot pid (createElement left),
         { d with fades := d.fades ++
             [{ element := createElement left, fadeKind := .fadeOut }] })) := by
  constructor
  · intro right hml hmr hfd
    simp [processMatch, hml, hmr, hfd]
  · intro left pid parent hml hmr hch hfd hpid habs hpar hp
    simp [processMatch, hml, hmr, hch, hfd, hpid, habs, hpar, hp]

theorem createAnimations_eq (d : UpdateAnimationData) (root : SElem) :
    createAnimations d root =
      (if 0 < d.fades.length then [Animation.fadeAnimation root d.fades true] else []) ++
      ((if 0 < (movesOf d).length then
          [Animation.moveAnimation root
            ((movesOf d).foldl (fun acc mv => objSet acc mv.elementId mv) [])]
        else []) ++
       (if 0 < (resizesOf d).length then
          [Animation.resizeAnimation root
            ((resizesOf d).foldl (fun acc rs => objSet acc rs.element.id rs) [])]
        else [])) := by
  unfold createAnimations movesOf resizesOf
  cases d.moves <;> cases d.resizes <;> simp <;> split_ifs <;> simp

theorem createAnimations_length (d : UpdateAnimationData) (root : SElem) :
    (createAnimations d root).length = nonEmptyCount d := by
  rw [createAnimations_eq]
  unfold nonEmptyCount
  by_cases hf : 0 < d.fades.length <;>
    by_cases hm : 0 < (movesOf d).length <;>
    by_cases hv : 0 < (resizesOf d).length <;>
    simp [hf, hm, hv]

theorem createAnimations_single (d : UpdateAnimationData) (root : SElem) (a : Animation)
    (h : createAnimations d root = [a]) :
    a.isCompound = false ∧
    (d.fades.length > 0 → a = .fadeAnimation root d.fades true) ∧
    ((movesOf d).length > 0 → ∃ mm, a = .moveAnimation root mm) ∧
    ((resizesOf d).length > 0 → ∃ rm, a = .resizeAnimation root rm) := by
  rw [createAnimations_eq] at h
  by_cases hf : 0 < d.fades.length <;>
    by_cases hm : 0 < (movesOf d).length <;>
    by_cases hv : 0 < (resizesOf d).length <;>
    simp [hf, hm, hv] at h ⊢ <;>
    simp [← h, Animation.isCompound]

/-- C1: with zero non-empty job sequences the reconciliation commits the
(post-pass) new root with no animation; with exactly one, computeAnimation
returns that single concrete animation of the matching category; with two or
more it returns a compound animation with exactly that many children. -/
theorem computeAnimation_selection (newRoot : SElem) (matchResult : MatchResult) :
    (nonEmptyCount (reconcile newRoot matchResult).2 = 0 →
      computeAnimation newRoot matchResult = Sum.inl (reconcile newRoot matchResult).1) ∧
    (nonEmptyCount (reconcile newRoot matchResult).2 = 1 →
      ∃ a, computeAnimation newRoot matchResult = Sum.inr a ∧
        createAnimations (reconcile newRoot matchResult).2 (reconcile newRoot matchResult).1 =
          [a] ∧
        a.isCompound = false ∧
        (0 < (reconcile newRoot matchResult).2.fades.length →
          a = .fadeAnimation (reconcile newRoot matchResult).1
                (reconcile newRoot matchResult).2.fades true) ∧
        (0 < (movesOf (reconcile newRoot matchResult).2).length →
          ∃ mm, a = .moveAnimation (reconcile newRoot matchResult).1 mm) ∧
        (0 < (resizesOf (reconcile newRoot matchResult).2).length →
          ∃ rm, a = .resizeAnimation (reconcile newRoot matchResult).1 rm)) ∧
    (2 ≤ nonEmptyCount (reconcile newRoot matchResult).2 →
      computeAnimation newRoot matchResult =
        Sum.inr (.compoundAnimation (reconcile newRoot matchResult).1
          (createAnimations (reconcile newRoot matchResult).2
            (reconcile newRoot matchResult).1)) ∧
      (createAnimations (reconcile newRoot matchResult).2
        (reconcile newRoot matchResult).1).length =
          nonEmptyCount (reconcile newRoot matchResult).2) := by
  have hsel : computeAnimation newRoot matchResult =
      (if (createAnimations (reconcile newRoot matchResult).2
            (reconcile newRoot matchResult).1).length ≥ 2
       then Sum.inr (.compoundAnimation (reconcile newRoot matchResult).1
              (createAnimations (reconcile newRoot matchResult).2
                (reconcile newRoot matchResult).1))
       else
         match createAnimations (reconcile newRoot matchResult).2
             (reconcile newRoot matchResult).1 with
         | [a] => Sum.inr a
         | _ => Sum.inl (reconcile newRoot matchResult).1) := rfl
  have hlen := createAnimations_length (reconcile newRoot matchResult).2
    (reconcile newRoot matchResult).1
  refine ⟨?_, ?_, ?_⟩
  · intro h0
    have hnil : createAnimations (reconcile newRoot matchResult).2
        (reconcile newRoot matchResult).1 = [] :=
      List.length_eq_zero.mp (hlen.trans h0)
    rw [hsel, hnil]
    simp
  · intro h1
    obtain ⟨a, ha⟩ := List.length_eq_one.mp (hlen.trans h1)
    obtain ⟨hc, hfa, hmv, hrz⟩ := createAnimations_single _ _ _ ha
    refine ⟨a, ?_, ha, hc, hfa, hmv, hrz⟩
    rw [hsel, ha]
    simp
  · intro h2
    have hge : (createAnimations (reconcile newRoot matchResult).2
        (reconcile newRoot matchResult).1).length ≥ 2 := by
      rw [hlen]; exact h2
    rw [hsel]
    simp [hge]
    rw [hlen]

/-- C6: with animation disabled or differing root identifiers, performUpdate
commits instantaneously: the returned root is the new root with exactly the
old canvas bounds copied onto it; and an undefined animate flag of the action
defaults to true. -/
theorem performUpdate_instant (animate : Bool) (matchList : Option (List SMatch))
    (oldRoot newRoot : SElem)
    (h : animate = false ∨ oldRoot.id ≠ newRoot.id) :
    performUpdate animate matchList oldRoot newRoot =
      CommandResult.root (newRoot.withCanvasBounds oldRoot.canvasBounds) ∧
    (∀ action : UpdateModelAction, action.animate = none →
      (initAction action).animate = some true) := by
  constructor
  · unfold performUpdate
    have hc : (animate && (oldRoot.id == newRoot.id)) = false := by
      rcases h with h | h
      · simp [h]
      · simp [h]
    rw [hc]
    simp
  · intro action ha
    unfold initAction
    rw [ha]
    simp

/-- C8: undo replays the orchestration with the stored roots swapped, redo
replays it forward, and the redo after an execute yields exactly the result
of the original execute. -/
theorem execute_undo_redo (action0 : UpdateModelAction) (contextRoot : SElem) :
    undo (execute action0 contextRoot).1 =
      performUpdate ((execute action0 contextRoot).1.action.animate.getD true)
        (execute action0 contextRoot).1.action.matchList
        (execute action0 contextRoot).1.newRoot (execute action0 contextRoot).1.oldRoot ∧
    redo (execute action0 contextRoot).1 =
      performUpdate ((execute action0 contextRoot).1.action.animate.getD true)
        (execute action0 contextRoot).1.action.matchList
        (execute action0 contextRoot).1.oldRoot (execute action0 contextRoot).1.newRoot ∧
    redo (execute action0 contextRoot).1 = (execute action0 contextRoot).2 :=
  ⟨rfl, rfl, rfl⟩

/-- C9: registering an event listener for an event that already has one
throws (fails loudly); registering for an event with no listener succeeds and
stores the pair. -/
theorem on_duplicate (onMap : OnMap) (event : String) (listener : VListener) :
    ((objGet onMap event).isSome = true →
      «on» onMap event listener =
        .error ("EventListener for " ++ event ++ " already registered on VNode")) ∧
    ((objGet onMap event).isSome = false →
      «on» onMap event listener = .ok (objSet onMap event listener)) := by
  cases hg : objGet onMap event with
  | some v =>
    refine ⟨fun _ => ?_, fun hfalse => ?_⟩
    · unfold «on»
      rw [hg]
    · simp at hfalse
  | none =>
    refine ⟨fun htrue => ?_, fun _ => ?_⟩
    · simp at htrue
    · unfold «on»
      rw [hg]

theorem keysOf_nil : keysOf [] = [] := rfl

theorem keysOf_cons (k : String) (v : SMatch) (r : MatchResult) :
    keysOf ((k, v) :: r) = k :: keysOf r := rfl

theorem objGet_objSet {α : Type} (r : List (String × α)) (k : String) (v : α) (i : String) :
    objGet (objSet r k v) i = if k = i then some v else objGet r i := by
  induction r with
  | nil =>
    unfold objSet objGet
    by_cases h : k = i <;> simp [h, objGet]
  | cons e rest ih =>
    obtain ⟨k0, v0⟩ := e
    unfold objSet
    by_cases h0 : k0 = k
    · subst h0
      unfold objGet
      by_cases h : k0 = i <;> simp [h]
    · simp [h0]
      unfold objGet
      by_cases h : k0 = i
      · subst h
        have hki : ¬ k = k0 := fun hh => h0 hh.symm
        simp [hki, ih]
      · simp [h, ih]

theorem keysOf_mem_iff (r : MatchResult) (i : String) :
    i ∈ keysOf r ↔ (objGet r i).isSome = true := by
  induction r with
  | nil => simp [keysOf_nil, objGet]
  | cons e rest ih =>
    obtain ⟨k0, v0⟩ := e
    rw [keysOf_cons, List.mem_cons]
    unfold objGet
    by_cases h : k0 = i
    · subst h
      simp
    · have hik : ¬ i = k0 := fun hh => h hh.symm
      simp [h, hik]
      exact ih

theorem findLast_foldl (ms : List SMatch) (i : String) (init : Option SMatch) :
    ms.foldl (fun acc m => if directiveKey m = some i then some m else acc) init =
      match ms.foldl (fun acc m => if directiveKey m = some i then some m else acc) none with
      | some x => some x
      | none => init := by
  induction ms generalizing init with
  | nil => simp
  | cons x xs ih =>
    simp only [List.foldl_cons]
    rw [ih (if directiveKey x = some i then some x else init),
        ih (if directiveKey x = some i then some x else none)]
    cases hx : xs.foldl (fun acc m => if directiveKey m = some i then some m else acc) none
    · by_cases hp : directiveKey x = some i <;> simp [hp]
    · simp

theorem findLastDirective_cons (m : SMatch) (ms : List SMatch) (i : String) :
    findLastDirective (m :: ms) i =
      match findLastDirective ms i with
      | some x => some x
      | none => if directiveKey m = some i then some m else none := by
  unfold findLastDirective
  simp only [List.foldl_cons]
  exact findLast_foldl ms i (if directiveKey m = some i then some m else none)

theorem findLastDirective_isSome (ms : List SMatch) (i : String) :
    (findLastDirective ms i).isSome = true ↔ some i ∈ ms.map directiveKey := by
  induction ms with
  | nil => simp [findLastDirective]
  | cons m rest ih =>
    rw [findLastDirective_cons, List.map_cons, List.mem_cons]
    cases hx : findLastDirective rest i with
    | some x =>
      have hmem : some i ∈ List.map directiveKey rest := by
        rw [← ih, hx]
        rfl
      simp [hmem]
    | none =>
      have hrest : ¬ some i ∈ List.map directiveKey rest := by
        rw [← ih, hx]
        simp
      by_cases hk : directiveKey m = some i
      · simp [hk, hrest]
      · have hik : ¬ some i = directiveKey m := fun hh => hk hh.symm
        simp [hk, hrest, hik]

theorem findLastDirective_mem (ms : List SMatch) (i : String) (m : SMatch)
    (h : findLastDirective ms i = some m) :
    m ∈ ms ∧ directiveKey m = some i := by
  induction ms with
  | nil => simp [findLastDirective] at h
  | cons x rest ih =>
    rw [findLastDirective_cons] at h
    cases hx : findLastDirective rest i with
    | some y =>
      simp only [hx] at h
      have hym : y = m := Option.some.inj h
      subst hym
      have hr := ih hx
      exact ⟨List.mem_cons_of_mem x hr.1, hr.2⟩
    | none =>
      simp only [hx] at h
      by_cases hk : directiveKey x = some i
      · rw [if_pos hk] at h
        have hxm : x = m := Option.some.inj h
        subst hxm
        exact ⟨List.mem_cons_self x rest, hk⟩
      · rw [if_neg hk] at h
        cases h

theorem convert_objGet (ms : List SMatch) (lRoot rRoot : SElem) (acc : MatchResult)
    (i : String) :
    objGet (ms.foldl (convertStep lRoot rRoot) acc) i =
      match findLastDirective ms i with
      | some m => some (convertedMatch m lRoot rRoot)
      | none => objGet acc i := by
  induction ms generalizing acc with
  | nil => simp [findLastDirective]
  | cons m rest ih =>
    simp only [List.foldl_cons]
    rw [ih, findLastDirective_cons]
    cases hx : findLastDirective rest i with
    | some y => simp
    | none =>
      simp only []
      unfold convertStep
      cases hk : directiveKey m with
      | some k =>
        simp only []
        rw [objGet_objSet]
        by_cases hki : k = i
        · subst hki
          simp [hk]
        · have hne : ¬ directiveKey m = some i := by
            rw [hk]
            intro hh
            exact hki (Option.some.inj hh)
          simp [hne, hki]
      | none =>
        have hne : ¬ directiveKey m = some i := by
          rw [hk]
          intro hh
          cases hh
        simp [hne]

/-- C5 (amended): the key set of a converted match result is exactly the set
of per-directive keys, where a directive's key is its new-side identifier
when a new side is named and its old-side identifier otherwise; every keyed
Match is the conversion of some directive carrying that key. -/
theorem convertToMatchResult_keys (matchList : List SMatch) (leftRoot rightRoot : SElem) :
    (∀ i, i ∈ keysOf (convertToMatchResult matchList leftRoot rightRoot) ↔
       some i ∈ matchList.map directiveKey) ∧
    (∀ i, i ∈ keysOf (convertToMatchResult matchList leftRoot rightRoot) →
       ∃ m ∈ matchList, directiveKey m = some i ∧
         objGet (convertToMatchResult matchList leftRoot rightRoot) i =
           some (convertedMatch m leftRoot rightRoot)) := by
  have hobj : ∀ i, objGet (convertToMatchResult matchList leftRoot rightRoot) i =
      match findLastDirective matchList i with
      | some m => some (convertedMatch m leftRoot rightRoot)
      | none => none := by
    intro i
    unfold convertToMatchResult
    rw [convert_objGet]
    cases findLastDirective matchList i <;> rfl
  constructor
  · intro i
    rw [keysOf_mem_iff, hobj, ← findLastDirective_isSome]
    cases findLastDirective matchList i <;> simp
  · intro i hi
    rw [keysOf_mem_iff, hobj] at hi
    cases hx : findLastDirective matchList i with
    | some m =>
      have hm := findLastDirective_mem matchList i m hx
      refine ⟨m, hm.1, hm.2, ?_⟩
      rw [hobj, hx]
    | none =>
      rw [hx] at hi
      simp at hi

/-- C7 (amended): in applyMatches an inserted element whose parent reference
is missing or does not resolve to a parent element is attached at the tree
root; in the fade-out ghost branch of the reconciliation loop an unresolvable
recorded parent skips the ghost insertion and its fade-out entirely, leaving
tree and animation data unchanged; both paths are total, so the update never
fails. -/
theorem unresolved_parent_handling :
    (∀ (root : SElem) (m : SMatch) (r : SElem), m.right = some r →
      (m.rightParentId = none ∨
       (∃ pid, m.rightParentId = some pid ∧ getById (applyLeftRemoval root m) pid = none) ∨
       (∃ pid p, m.rightParentId = some pid ∧
          getById (applyLeftRemoval root m) pid = some p ∧
          p.kind.isParentElement = false)) →
      applyMatchStep root m = (applyLeftRemoval root m).addChild (createElement r)) ∧
    (∀ (newRoot : SElem) (d : UpdateAnimationData) (key : String) (m : SMatch)
        (left : SElem) (pid : String),
      m.left = some left → m.right = none → m.leftParentId = some pid →
      left.kind.isChildElement = true → isFadeable left = true →
      getById newRoot left.id = none →
      (getById newRoot pid = none ∨
       (∃ p, getById newRoot pid = some p ∧ p.kind.isParentElement = false)) →
      processMatch (newRoot, d) (key, m) = (newRoot, d)) := by
  constructor
  · intro root m r hr hcase
    rcases hcase with hnone | ⟨pid, hpid, hget⟩ | ⟨pid, p, hpid, hget, hp⟩
    · simp [applyMatchStep, hr, hnone]
    · simp [applyMatchStep, hr, hpid, hget]
    · simp [applyMatchStep, hr, hpid, hget, hp]
  · intro newRoot d key m left pid hml hmr hpid hch hfd habs hcase
    rcases hcase with hget | ⟨p, hget, hp⟩
    · simp [processMatch, hml, hmr, hpid, hch, hfd, habs, hget]
    · simp [processMatch, hml, hmr, hpid, hch, hfd, habs, hget, hp]

theorem computeAnimation_selection_witness :
    computeAnimation w1Root w1MR =
      Sum.inr (.compoundAnimation (reconcile w1Root w1MR).1
        (createAnimations (reconcile w1Root w1MR).2 (reconcile w1Root w1MR).1)) ∧
    (createAnimations (reconcile w1Root w1MR).2 (reconcile w1Root w1MR).1).length =
      nonEmptyCount (reconcile w1Root w1MR).2 ∧
    nonEmptyCount (reconcile w1Root w1MR).2 = 2 :=
  ⟨((computeAnimation_selection w1Root w1MR).2.2 (by decide)).1,
   ((computeAnimation_selection w1Root w1MR).2.2 (by decide)).2,
   by decide⟩

theorem updateElement_move_witness :
    ((updateElement wMoveOld wMoveNear { fades := [] }).2.2.moves = none ∧
     (updateElement wMoveOld wMoveNear { fades := [] }).2.1.position =
       some ⟨wEpsHalf, 0⟩) ∧
    ((updateElement wMoveOld wMoveFar { fades := [] }).2.2.moves =
       some [{ element := wMoveFar, elementId := "m1",
               fromPosition := ⟨0, 0⟩, toPosition := ⟨10, 0⟩ }] ∧
     (updateElement wMoveOld wMoveFar { fades := [] }).2.1.position = some ⟨0, 0⟩) :=
  ⟨(updateElement_move wMoveOld wMoveNear { fades := [] } ⟨0, 0⟩ ⟨wEpsHalf, 0⟩
      rfl rfl).1 (by decide) (by decide),
   (updateElement_move wMoveOld wMoveFar { fades := [] } ⟨0, 0⟩ ⟨10, 0⟩
      rfl rfl).2 (Or.inl (by decide))⟩

theorem updateElement_resize_witness :
    ((updateElement wResizeOld wResizeInvalid { fades := [] }).2.1.bounds =
       some { x := 0, y := 0, width := 5, height := 5 } ∧
     (updateElement wResizeOld wResizeInvalid { fades := [] }).2.2.resizes = none) ∧
    (updateElement wResizeOld wResizeBig { fades := [] }).2.2.resizes =
      some [{ element := wResizeBig,
              fromDimension := { width := 5, height := 5 },
              toDimension := { width := 9, height := 9 } }] :=
  ⟨(updateElement_resize wResizeOld wResizeInvalid { fades := [] }
      ⟨0, 0, 5, 5⟩ ⟨0, 0, -1, -1⟩ rfl rfl).1 (by decide),
   (updateElement_resize wResizeOld wResizeBig { fades := [] }
      ⟨0, 0, 5, 5⟩ ⟨0, 0, 9, 9⟩ rfl rfl).2 (by decide) (Or.inl (by decide))⟩

theorem processMatch_fade_witness :
    processMatch (wC4Root, { fades := [] }) ("a1", { right := some wC4Add }) =
      (replaceById wC4Root "a1" (wC4Add.withOpacity (some 0)),
       { fades := [{ element := wC4Add.withOpacity (some 0), fadeKind := .fadeIn }] }) ∧
    processMatch (wC4Root, { fades := [] })
        ("g2", { left := some wC4Gone, leftParentId := some "root" }) =
      (addChildById wC4Root "root" (createElement wC4Gone),
       { fades := [{ element := createElement wC4Gone, fadeKind := .fadeOut }] }) :=
  ⟨(processMatch_fade wC4Root { fades := [] } "a1" { right := some wC4Add }).1
      wC4Add rfl rfl rfl,
   (processMatch_fade wC4Root { fades := [] } "g2"
      { left := some wC4Gone, leftParentId := some "root" }).2
      wC4Gone "root" wC4Root rfl rfl rfl rfl rfl rfl rfl rfl⟩

theorem convertToMatchResult_cex :
    keysOf (convertToMatchResult c5Directives c5LeftRoot c5RightRoot) = ["b", "x"] ∧
    c5Directives.map (fun m => m.left.map SElem.id) = [some "a", some "x"] ∧
    "a" ∉ keysOf (convertToMatchResult c5Directives c5LeftRoot c5RightRoot) ∧
    (objGet (convertToMatchResult c5Directives c5LeftRoot c5RightRoot) "x").map
      (fun mr => mr.left.isNone && mr.right.isNone) = some true := by
  refine ⟨rfl, rfl, ?_, rfl⟩
  decide

theorem convertToMatchResult_keys_witness :
    ("b" ∈ keysOf (convertToMatchResult c5Directives c5LeftRoot c5RightRoot) ↔
      some "b" ∈ c5Directives.map directiveKey) ∧
    (∃ m ∈ c5Directives, directiveKey m = some "x" ∧
      objGet (convertToMatchResult c5Directives c5LeftRoot c5RightRoot) "x" =
        some (convertedMatch m c5LeftRoot c5RightRoot)) :=
  ⟨(convertToMatchResult_keys c5Directives c5LeftRoot c5RightRoot).1 "b",
   (convertToMatchResult_keys c5Directives c5LeftRoot c5RightRoot).2 "x" (by decide)⟩

theorem performUpdate_instant_witness :
    performUpdate true none wC6Old wC6New =
      CommandResult.root (wC6New.withCanvasBounds wC6Old.canvasBounds) ∧
    (∀ action : UpdateModelAction, action.animate = none →
      (initAction action).animate = some true) :=
  performUpdate_instant true none wC6Old wC6New (Or.inr (by decide))

theorem unresolved_ghost_cex :
    getById c7Root "nope" = none ∧
    getById c7Root "g" = none ∧
    computeAnimation c7Root c7MR = Sum.inl c7Root ∧
    (reconcile c7Root c7MR).2.fades.length = 0 :=
  ⟨rfl, rfl, rfl, rfl⟩

theorem unresolved_parent_handling_witness :
    applyMatchStep c7Root { right := some c7Ghost, rightParentId := some "nope" } =
      (applyLeftRemoval c7Root
        { right := some c7Ghost, rightParentId := some "nope" }).addChild
        (createElement c7Ghost) ∧
    processMatch (c7Root, { fades := [] }) ("g", c7Match) = (c7Root, { fades := [] }) :=
  ⟨(unresolved_parent_handling).1 c7Root
      { right := some c7Ghost, rightParentId := some "nope" } c7Ghost rfl
      (Or.inr (Or.inl ⟨"nope", rfl, rfl⟩)),
   (unresolved_parent_handling).2 c7Root { fades := [] } "g" c7Match c7Ghost "nope"
      rfl rfl rfl rfl rfl rfl (Or.inl rfl)⟩

theorem on_duplicate_witness :
    «on» [("click", wListenerA)] "click" wListenerB =
      .error ("EventListener for " ++ "click" ++ " already registered on VNode") ∧
    «on» [] "click" wListenerA = .ok [("click", wListenerA)] :=
  ⟨(on_duplicate [("click", wListenerA)] "click" wListenerB).1 rfl,
   (on_duplicate [] "click" wListenerA).2 rfl⟩


end Sprotty
